import Mathlib

/-!
# HiddenWetSolaris: the byte dumper `me_prdump` and the stream state it runs in

A shallow embedding of `src/main.cpp`.

`std::cout` is modelled by the formatting state its insertions consult: the
`basefield` flag (`std::dec`, `std::oct`, `std::hex`), the fill character
(`setfill`, `fill`), the pending field width (`setw`, `width`) and the flags
`adjustfield`, `uppercase` and `showbase`.  The program sets the first three
and never touches the last three, so these are what the caller left in the
stream.  `showpos` is not modelled: every number the program writes is
unsigned, and `num_put` writes a sign only for signed types.  The stream is
taken to be in a good state and in the "C" locale, so that every insertion
writes its text.

An insertion (`Ins`) takes the formatting state and returns the characters it
appends to the stream together with the new formatting state.  A chain of
`<<` is the list of its insertions, executed left to right by `run`.

The inspected value `T const & s` is given by its storage bytes in address
order (`mem`, so that `sizeof(T) = mem.length`) and by the numeric value of
its address (`addr`).
-/

namespace HiddenWetSolaris

/-! ## Stream formatting state -/

/-- The `basefield` of the stream's format flags.  A stream with no base bit
set, or with several, writes numbers like `dec`. -/
inductive Base where
  | dec
  | oct
  | hex
deriving DecidableEq

/-- Radix selected by a `basefield` value. -/
def Base.radix : Base → Nat
  | .dec => 10
  | .oct => 8
  | .hex => 16

/-- The `adjustfield` of the stream's format flags.  A stream with no
adjustment bit set, or with several, pads like `right`. -/
inductive Adjust where
  | left
  | right
  | internal
deriving DecidableEq

/-- Formatting state of the output stream: what `copyfmt` copies and the
insertions consult.  The last three fields default to the values of a freshly
initialised stream. -/
structure Fmt where
  base : Base
  fill : Char
  width : Nat
  adjust : Adjust := .right
  uppercase : Bool := false
  showbase : Bool := false
deriving DecidableEq

/-- Formatting state of a freshly initialised stream (`basic_ios::init`):
decimal, fill `' '`, width 0, no adjustment bit, `uppercase` and `showbase`
clear. -/
def Fmt.initial : Fmt := { base := .dec, fill := ' ', width := 0 }

/-- An insertion or manipulator applied to the stream: the characters written
and the formatting state left behind. -/
abbrev Ins := Fmt → List Char × Fmt

/-- A chain `os << a << b << ...`, executed left to right. -/
def run : List Ins → Ins
  | [], s => ([], s)
  | i :: rest, s =>
    let r := i s
    let q := run rest r.2
    (r.1 ++ q.1, q.2)

/-- Padding of a piece of text (a string, a character, a bitset) up to the
pending width: the fill characters go after the text when the adjustment is
`left`, before it otherwise. -/
def padText (s : Fmt) (body : List Char) : List Char :=
  match s.adjust with
  | .left => body ++ List.replicate (s.width - body.length) s.fill
  | .right => List.leftpad s.width s.fill body
  | .internal => List.leftpad s.width s.fill body

/-- Padding of the text of a number up to the pending width, as `num_put` does
it: after the text for `left`, before it for `right`, and for `internal`
between a leading `0x` or `0X` and the digits (before the text when there is no
such prefix; the numbers written here carry no sign). -/
def padNum (s : Fmt) (txt : List Char) : List Char :=
  match s.adjust with
  | .left => txt ++ List.replicate (s.width - txt.length) s.fill
  | .right => List.leftpad s.width s.fill txt
  | .internal =>
    match txt with
    | c :: x :: rest =>
      if c = '0' ∧ (x = 'x' ∨ x = 'X') then
        c :: x :: (List.replicate (s.width - txt.length) s.fill ++ rest)
      else List.leftpad s.width s.fill txt
    | _ => List.leftpad s.width s.fill txt

/-- Formatted insertion of a piece of text: it is padded up to the pending
width, and the width is reset to 0. -/
def putText (body : List Char) : Ins := fun s =>
  (padText s body, { s with width := 0 })

/-- The insertion `os << "literal"` and `os << std::string`. -/
def putStr (str : String) : Ins := putText str.toList

/-- The insertion `os << c` for a `char`. -/
def putChar (c : Char) : Ins := putText [c]

/-- The digits of an unsigned integer in the current base, in capitals when
`uppercase` is set. -/
def numDigits (s : Fmt) (n : Nat) : List Char :=
  if s.uppercase then (Nat.toDigits s.base.radix n).map Char.toUpper
  else Nat.toDigits s.base.radix n

/-- The base prefix `showbase` asks for: `0x` (`0X` with `uppercase`) in
hexadecimal and `0` in octal, for a value other than zero. -/
def basePrefix (s : Fmt) (n : Nat) : List Char :=
  if s.showbase = true ∧ n ≠ 0 then
    match s.base with
    | .dec => []
    | .oct => ['0']
    | .hex => if s.uppercase then ['0', 'X'] else ['0', 'x']
  else []

/-- The text of an unsigned integer before padding. -/
def numText (s : Fmt) (n : Nat) : List Char := basePrefix s n ++ numDigits s n

/-- The insertion `os << n` for an unsigned integer. -/
def putNat (n : Nat) : Ins := fun s =>
  (padNum s (numText s n), { s with width := 0 })

/-- Text of a pointer as `num_put` of libstdc++ writes it, whatever the flags of
the stream: lowercase hexadecimal with the `0x` prefix, which is omitted for
zero. -/
def ptrText (addr : Nat) : List Char :=
  if addr = 0 then ['0'] else '0' :: 'x' :: Nat.toDigits 16 addr

/-- The insertion `os << p` for a `void const *`; the base, `uppercase` and
`showbase` of the stream are not consulted, its adjustment is. -/
def putPtr (addr : Nat) : Ins := fun s =>
  (padNum s (ptrText addr), { s with width := 0 })

/-- The characters of `std::bitset<N>(v).to_string()`: bit `N-1` first, bit 0
last.  Bits of `v` above `N` are dropped by the constructor. -/
def bitsetText : Nat → Nat → List Char
  | 0, _ => []
  | N + 1, v => (if v / 2 ^ N % 2 = 1 then '1' else '0') :: bitsetText N v

/-- The insertion `os << std::bitset<N>(v)`: the bit string inserted as text. -/
def putBitset (N v : Nat) : Ins := putText (bitsetText N v)

/-- The manipulator `std::endl`: an unformatted `put` of a newline (no padding, the
width is left alone) and a flush. -/
def endl : Ins := fun s => (['\n'], s)

/-- The manipulator `std::setw(n)` and the call `width(n)`. -/
def setw (n : Nat) : Ins := fun s => ([], { s with width := n })

/-- The manipulator `std::setfill(c)` and the call `fill(c)`. -/
def setfill (c : Char) : Ins := fun s => ([], { s with fill := c })

/-- The manipulator `std::dec`. -/
def dec : Ins := fun s => ([], { s with base := .dec })

/-- The manipulator `std::oct`. -/
def oct : Ins := fun s => ([], { s with base := .oct })

/-- The manipulator `std::hex`. -/
def hex : Ins := fun s => ([], { s with base := .hex })

/-- The call `dst.copyfmt(src)`: the formatting state of `dst` becomes that of
`src` (flags, fill and width are all copied). -/
def copyfmt (_dst src : Fmt) : Fmt := src

/-- The classification `std::isprint` in the "C" locale, which the program
never changes: codes 0x20 to 0x7e. -/
def isprint (c : Nat) : Bool := decide (0x20 ≤ c) && decide (c ≤ 0x7e)

/-! ## `me_prdump` -/

/-- Lines 158-170 of `me_prdump`: the blank line, the title and size line, the
address line and the column-header line, for a value of `n` bytes at address
`addr`. -/
def prdumpHeader (title : List Char) (n addr : Nat) : List Ins :=
  [ putChar '\n', putText title,
    putStr " - Size: ", dec, setw 6,
    putNat n,
    putStr " [",
    setw 8, setfill '0', hex,
    putNat n,
    putStr "]",
    endl,
    putStr "Dump address: ",
    putPtr addr,
    endl,
    putStr "Offset: Hex - Dec - Oct - Bin      - Char",
    endl ]

/-- Lines 174-192: the body of the loop for the byte `ibyte` with the offset
counter at `offset`.  The casts `static_cast<uint16_t>(ibyte)` widen and keep
the value. -/
def prdumpRecord (offset ibyte : Nat) : List Ins :=
  [ putStr "  ",
    hex, setw 4, setfill '0',
    putNat offset, putStr ": ",
    hex, setw 2, setfill '0',
    putNat ibyte,
    putStr "  - ",
    dec, setw 3, setfill '0',
    putNat ibyte,
    putStr " - ",
    oct, setw 3, setfill '0',
    putNat ibyte,
    putStr " - ",
    hex, setw 8, setfill ' ',
    putBitset 8 ibyte,
    putStr " - ",
    dec, setw 1, setfill ' ',
    putChar (if isprint ibyte then Char.ofNat ibyte else '.'),
    putChar '\n' ]

/-- Lines 171-193: the loop over the bytes at `sp`.  `offset` is a `uint16_t`, so
`offset++` wraps at 2^16; `ibyte` is a `uint8_t`.  The text of every iteration
is returned separately, in order. -/
def prdumpLoop : List Nat → Nat → Fmt → List (List Char) × Fmt
  | [], _, s => ([], s)
  | m :: sp, offset, s =>
    let ibyte := m % 256
    let r := run (prdumpRecord offset ibyte) s
    let q := prdumpLoop sp ((offset + 1) % 65536) r.2
    (r.1 :: q.1, q.2)

/-- The record lines `me_prdump` writes (the text of each loop iteration), for
the stream state `s` at entry. -/
def me_prdump_records (mem : List Nat) (addr : Nat) (title : List Char) (s : Fmt) :
    List (List Char) :=
  (prdumpLoop mem 0 (run (prdumpHeader title mem.length addr) s).2).1

/-- The function `me_prdump(s, title)` for a value stored as `mem` at address
`addr`: the whole text written to `std::cout` and the formatting state the
stream is left in. -/
def me_prdump (mem : List Nat) (addr : Nat) (title : List Char) (s : Fmt) :
    List Char × Fmt :=
  let h := run (prdumpHeader title mem.length addr) s
  let l := prdumpLoop mem 0 h.2
  let e := endl l.2
  (h.1 ++ l.1.flatten ++ e.1, e.2)

/-! ## The banners of `me_sample` and `cppreference_sample` -/

/-- Lines 71-74 and 111-114: the banner insertions, `func` being `__func__`. -/
def bannerBody (func : String) : List Ins :=
  [ setw 40, setfill '.', putChar '\n',
    putStr "Func: ", putStr func, putChar '\n', endl ]

/-- Lines 68-75 (and 108-115): `init` is constructed in the initial state,
takes a copy of the formatting of `std::cout`, the banner is written, and
`std::cout` takes the formatting of `init` back.  Returns the text written, the
formatting state just before the restore and the one after it. -/
def banner (func : String) (s : Fmt) : List Char × Fmt × Fmt :=
  let init := copyfmt Fmt.initial s
  let r := run (bannerBody func) s
  (r.1, r.2, copyfmt r.2 init)

/-- Lines 68-75 of `me_sample`. -/
def me_sample_banner (s : Fmt) : List Char × Fmt × Fmt := banner "me_sample" s

/-- Lines 108-115 of `cppreference_sample`. -/
def cppreference_sample_banner (s : Fmt) : List Char × Fmt × Fmt :=
  banner "cppreference_sample" s

/-! ## Bitsets -/

/-- The constant `ULLONG_MAX` of `<climits>`: `unsigned long long` has 64 bits. -/
def ULLONG_MAX : Nat := 2 ^ 64 - 1

/-- The constant `std::string::npos`, the largest `size_t`. -/
def npos : Nat := 2 ^ 64 - 1

/-- The constructor `std::bitset<N>(unsigned long long v)`: the low `N` bits of
`v`.  A bitset is represented by the number its bits spell. -/
def bitsetOfULL (N v : Nat) : Nat := v % 2 ^ 64 % 2 ^ N

/-- The constructor `std::bitset<N>(str, pos, n, zero, one)` for a string: it
throws (`none`) when `pos` is beyond the end of the string or when a character
read is neither `zero` nor `one`; otherwise at most `N` characters from
position `pos` are read, at most `n` of them, the first one being the most
significant bit. -/
def bitsetOfString (N : Nat) (str : List Char) (pos n : Nat) (zero one : Char) : Option Nat :=
  if str.length < pos then none
  else
    let nbits := min N (min n (str.length - pos))
    ((str.drop pos).take nbits).foldlM
      (fun acc c =>
        if c = zero then some (2 * acc) else if c = one then some (2 * acc + 1) else none)
      0

/-- The constructor `std::bitset<N>(const char* str, n, zero, one)` of libstdc++:
with `n` the length of `str` when it is `npos`, the first `min N n` characters
at `str` are read, the terminating NUL included when `n` reaches it (it is
neither `zero` nor `one`, so the constructor throws); reading beyond the NUL
is undefined and gives `none` too. -/
def bitsetOfCStr (N : Nat) (str : List Char) (n : Nat) (zero one : Char) : Option Nat :=
  let len := if n = npos then str.length else n
  let nbits := min N len
  if str.length + 1 < nbits then none
  else
    ((str ++ [Char.ofNat 0]).take nbits).foldlM
      (fun acc c =>
        if c = zero then some (2 * acc) else if c = one then some (2 * acc + 1) else none)
      0

/-! ## `me_sample` -/

/-- The macro `B`: width of the bit-field `b`. -/
def B : Nat := 3

/-- The macro `C`: width of the bit-field `c`. -/
def C : Nat := 12

/-- The macro `D`: width of the bit-field `d`. -/
def D : Nat := 4

/-- The named bit-fields of `struct S`, as the values read back from them. -/
structure S where
  b : Nat
  c : Nat
  d : Nat
deriving DecidableEq

/-- The initialisation `S s { .b = .., .c = .., .d = .. }`: every bit-field keeps
the low bits that fit its width. -/
def S.init (b c d : Nat) : S := { b := b % 2 ^ B, c := c % 2 ^ C, d := d % 2 ^ D }

/-- Lines 77-95 of `me_sample`: the struct is set up, the three bitsets are built
from its parts and the struct-contents line is written. -/
def me_sample_contents (st : Fmt) : List Char × Fmt :=
  let s := S.init 0b101 0b111011101110 0b1011
  let bB := bitsetOfULL B s.b
  let bC := bitsetOfULL C s.c
  let bD := bitsetOfULL D s.d
  run
    [ setw 6, putNat s.b, putChar ' ',
      setw 2, setfill '0', hex, putNat s.b, putChar ' ',
      setw 8, setfill ' ', putBitset B bB,
      putStr " : ",
      setw 4, setfill '0', hex, putNat s.c, putChar ' ',
      setw 16, setfill ' ', putBitset C bC,
      putStr " : ",
      setw 4, setfill '0', hex, putNat s.d, putChar ' ',
      setw 8, setfill ' ', putBitset D bD,
      endl ] st

/-- The function `me_sample`: the banner, the struct-contents line and the dump of
the struct.  How the compiler lays the bit-fields out and what the padding
bytes hold is implementation-defined, so the storage of `s` (`mem`, at address
`addr`) is given. -/
def me_sample (mem : List Nat) (addr : Nat) (st : Fmt) : List Char × Fmt :=
  let b := me_sample_banner st
  let c := me_sample_contents b.2.2
  let d := me_prdump mem addr "Struct 'S'".toList c.2
  (b.1 ++ c.1 ++ d.1, d.2)

/-! ## `cppreference_sample` -/

/-- Lines 117-141 of `cppreference_sample`: the nine bitsets are constructed and
written, each followed by a newline.  The result is `none` when a constructor
throws. -/
def cppreference_sample_bitsets (st : Fmt) : Option (List Char × Fmt) := do
  let b1 := bitsetOfULL 8 0
  let b2 := bitsetOfULL 8 42
  let bl := bitsetOfULL 70 ULLONG_MAX
  let bs := bitsetOfULL 8 0xfff0
  let bit_string := "110010".toList
  let b3 ← bitsetOfString 8 bit_string 0 npos '0' '1'
  let b4 ← bitsetOfString 8 bit_string 2 npos '0' '1'
  let b5 ← bitsetOfString 8 bit_string 2 3 '0' '1'
  let alpha_bit_string := "aBaaBBaB".toList
  let b6 ← bitsetOfString 8 alpha_bit_string 0 alpha_bit_string.length 'a' 'B'
  let b7 ← bitsetOfCStr 8 "XXXXYYYY".toList 8 'X' 'Y'
  pure (run
    [ putBitset 8 b1, putChar '\n', putBitset 8 b2, putChar '\n',
      putBitset 70 bl, putChar '\n', putBitset 8 bs, putChar '\n',
      putBitset 8 b3, putChar '\n', putBitset 8 b4, putChar '\n',
      putBitset 8 b5, putChar '\n', putBitset 8 b6, putChar '\n',
      putBitset 8 b7, putChar '\n' ] st)

/-- The function `cppreference_sample`: the banner, then the nine bitsets. -/
def cppreference_sample (st : Fmt) : Option (List Char × Fmt) := do
  let b := cppreference_sample_banner st
  let r ← cppreference_sample_bitsets b.2.2
  pure (b.1 ++ r.1, r.2)

/-! ## Specification-side vocabulary -/

/-- The `w` digits of `n` in base `b`, most significant first, zero-padded:
a fixed-width field. -/
def fixedDigits (b : Nat) : Nat → Nat → List Char
  | 0, _ => []
  | w + 1, n => fixedDigits b w (n / b) ++ [Nat.digitChar (n % b)]

/-- Value of a digit character in base `b`, if it is one; hexadecimal letters
count in either case. -/
def digitValue (b : Nat) (c : Char) : Option Nat :=
  let d :=
    if '0' ≤ c ∧ c ≤ '9' then c.toNat - '0'.toNat
    else if 'a' ≤ c ∧ c ≤ 'f' then c.toNat - 'a'.toNat + 10
    else if 'A' ≤ c ∧ c ≤ 'F' then c.toNat - 'A'.toNat + 10
    else b
  if d < b then some d else none

/-- Parse a non-empty string of base-`b` digits, most significant first. -/
def parseNat (b : Nat) (cs : List Char) : Option Nat :=
  if cs = [] then none
  else cs.foldl (fun acc c => acc.bind fun a => (digitValue b c).map fun d => a * b + d) (some 0)

/-- The `len` characters of `line` starting at index `start`. -/
def field (line : List Char) (start len : Nat) : List Char :=
  (line.drop start).take len

/-- The title and size line without its newline, the decimal size being padded
with the character `f`. -/
def headerLine (f : Char) (title : List Char) (n : Nat) : List Char :=
  title ++ " - Size: ".toList ++ List.leftpad 6 f (Nat.toDigits 10 n) ++ " [".toList
    ++ List.leftpad 8 '0' (Nat.toDigits 16 n) ++ "]".toList

/-- The address line without its newline. -/
def addressLine (addr : Nat) : List Char := "Dump address: ".toList ++ ptrText addr

/-- The column-header line without its newline. -/
def columnHeader : List Char := "Offset: Hex - Dec - Oct - Bin      - Char".toList

/-- The nine bit patterns written in the comments of `cppreference_sample`, one
per line. -/
def bitsetLines : List Char :=
  "00000000\n00101010\n".toList ++ List.replicate 6 '0' ++ List.replicate 64 '1'
    ++ "\n11110000\n00110010\n00000010\n00000001\n01001101\n00001111\n".toList

/-- A character that is neither a newline nor the letter of a hexadecimal
prefix. -/
abbrev plainChar (c : Char) : Prop := c ≠ '\n' ∧ c ≠ 'x' ∧ c ≠ 'X'

/-- The text of one loop iteration of `me_prdump` for the byte `v` with the
offset counter at `i`, in a stream whose adjustment, `uppercase` and `showbase`
are `adj`, `up` and `sb`. -/
def recordTextF (adj : Adjust) (up sb : Bool) (i v : Nat) : List Char :=
  (run (prdumpRecord i v)
    { base := .dec, fill := ' ', width := 0, adjust := adj, uppercase := up, showbase := sb }).1

/-- A number inserted in base `b` with the fill character `0` and the width `w`,
under the flags `adj`, `up` and `sb`: a numeric field of a record line. -/
def numFieldF (b : Base) (w : Nat) (adj : Adjust) (up sb : Bool) (n : Nat) : List Char :=
  padNum { base := b, fill := '0', width := w, adjust := adj, uppercase := up, showbase := sb }
    (numText
      { base := b, fill := '0', width := w, adjust := adj, uppercase := up, showbase := sb } n)

/-- A right-adjusted zero-filled field of minimum width `w` holding `n` in radix
`r`, in capitals when `up` is set. -/
def zeroField (up : Bool) (r w n : Nat) : List Char :=
  List.leftpad w '0' (if up then (Nat.toDigits r n).map Char.toUpper else Nat.toDigits r n)

/-- The part of a record line after the offset field and its colon under the
flags `adj`, `up` and `sb`. -/
def recordBodyF (adj : Adjust) (up sb : Bool) (v : Nat) : List Char :=
  (run ((prdumpRecord 0 v).drop 6)
    { base := .hex, fill := '0', width := 0, adjust := adj, uppercase := up, showbase := sb }).1

/-- The record lines of a dump under the flags `adj`, `up` and `sb`, the 16-bit
offset counter starting at `off`. -/
def recordLinesF (adj : Adjust) (up sb : Bool) : Nat → List Nat → List (List Char)
  | _, [] => []
  | off, m :: sp =>
    recordTextF adj up sb off (m % 256) :: recordLinesF adj up sb ((off + 1) % 65536) sp

/-- What `me_prdump` writes after its first newline and before its first record
line, with the fill character `f` at entry and under the flags `adj`, `up` and
`sb`. -/
def headerRestF (f : Char) (adj : Adjust) (up sb : Bool) (title : List Char) (n addr : Nat) :
    List Char :=
  (run ((prdumpHeader title n addr).drop 1)
    { base := .dec, fill := f, width := 0, adjust := adj, uppercase := up, showbase := sb }).1

/-- The character column for the byte `v`: the character with that code when it
is printable ASCII, `.` otherwise. -/
def charColumn (v : Nat) : Char := if 0x20 ≤ v ∧ v ≤ 0x7e then Char.ofNat v else '.'

/-! ## Running chains of insertions -/

@[simp] theorem run_nil (s : Fmt) : run [] s = ([], s) := rfl

@[simp] theorem run_cons (i : Ins) (rest : List Ins) (s : Fmt) :
    run (i :: rest) s = ((i s).1 ++ (run rest (i s).2).1, (run rest (i s).2).2) := rfl

/-! ## Digits -/

theorem toDigitsCore_acc (b : Nat) : ∀ (fuel n : Nat) (ds : List Char),
    Nat.toDigitsCore b fuel n ds = Nat.toDigitsCore b fuel n [] ++ ds := by
  intro fuel
  induction fuel with
  | zero => intro n ds; simp [Nat.toDigitsCore]
  | succ f ih =>
    intro n ds
    simp only [Nat.toDigitsCore]
    split
    · simp
    · rw [ih (n / b) (Nat.digitChar (n % b) :: ds), ih (n / b) [Nat.digitChar (n % b)]]
      simp

theorem fixedDigits_zero (b : Nat) : ∀ w : Nat,
    fixedDigits b w 0 = List.replicate w '0' := by
  intro w
  induction w with
  | zero => rfl
  | succ w ih =>
    have h0 : Nat.digitChar 0 = '0' := by decide
    simp only [fixedDigits, Nat.zero_div, Nat.zero_mod, ih, h0]
    exact (List.replicate_succ' (n := w) (a := '0')).symm

theorem fixedDigits_length (b : Nat) : ∀ w n : Nat, (fixedDigits b w n).length = w := by
  intro w
  induction w with
  | zero => intro n; rfl
  | succ w ih => intro n; simp [fixedDigits, ih]

theorem leftpad_snoc (w : Nat) (c d : Char) (xs : List Char) :
    List.leftpad (w + 1) c (xs ++ [d]) = List.leftpad w c xs ++ [d] := by
  simp [List.leftpad]

/-- A number below `b ^ (w + 1)`, written in base `b` into a zero-filled field of
width `w + 1`, gives its `w + 1` positional digits. -/
theorem leftpad_toDigitsCore (b : Nat) (hb : 2 ≤ b) : ∀ (w fuel n : Nat),
    n < fuel → n < b ^ (w + 1) →
    List.leftpad (w + 1) '0' (Nat.toDigitsCore b fuel n []) = fixedDigits b (w + 1) n := by
  intro w
  induction w with
  | zero =>
    intro fuel n hf hn
    obtain ⟨f, rfl⟩ : ∃ f, fuel = f + 1 := ⟨fuel - 1, by omega⟩
    have hn' : n < b := by simpa using hn
    have hdiv : n / b = 0 := Nat.div_eq_of_lt hn'
    simp [Nat.toDigitsCore, hdiv, fixedDigits, List.leftpad]
  | succ w ih =>
    intro fuel n hf hn
    obtain ⟨f, rfl⟩ : ∃ f, fuel = f + 1 := ⟨fuel - 1, by omega⟩
    have hlt : n / b < b ^ (w + 1) := by
      apply Nat.div_lt_of_lt_mul
      rw [pow_succ] at hn
      rw [Nat.mul_comm]
      exact hn
    by_cases hdiv : n / b = 0
    · have hfz := fixedDigits_zero b (w + 1)
      simp only [Nat.toDigitsCore, hdiv, if_true]
      rw [show fixedDigits b (w + 1 + 1) n
            = fixedDigits b (w + 1) (n / b) ++ [Nat.digitChar (n % b)] from rfl, hdiv, hfz]
      simp [List.leftpad]
    · have hfuel : n / b < f := by
        have hpos : 0 < n := by
          rcases Nat.eq_zero_or_pos n with h | h
          · subst h; simp at hdiv
          · exact h
        have : n / b < n := Nat.div_lt_self hpos (by omega)
        omega
      simp only [Nat.toDigitsCore, hdiv, if_false]
      rw [toDigitsCore_acc, leftpad_snoc, ih f (n / b) hfuel hlt]
      rfl

theorem leftpad_toDigits (b : Nat) (hb : 2 ≤ b) (w n : Nat) (hn : n < b ^ (w + 1)) :
    List.leftpad (w + 1) '0' (Nat.toDigits b n) = fixedDigits b (w + 1) n :=
  leftpad_toDigitsCore b hb w (n + 1) n (Nat.lt_succ_self n) hn

set_option maxRecDepth 100000 in
theorem bitsetText_byte : ∀ v : Nat, v < 256 → bitsetText 8 v = fixedDigits 2 8 v := by
  decide

theorem leftpad_of_le (w : Nat) (c : Char) (xs : List Char) (h : w ≤ xs.length) :
    List.leftpad w c xs = xs := by
  simp [List.leftpad, Nat.sub_eq_zero_of_le h]

@[simp] theorem leftpad_zero (c : Char) (xs : List Char) : List.leftpad 0 c xs = xs :=
  leftpad_of_le 0 c xs (Nat.zero_le _)

theorem isprint_iff (v : Nat) : isprint v = true ↔ 0x20 ≤ v ∧ v ≤ 0x7e := by
  simp [isprint]

theorem toDigits_length_le (b : Nat) (hb : 2 ≤ b) (w n : Nat) (hn : n < b ^ (w + 1)) :
    (Nat.toDigits b n).length ≤ w + 1 := by
  have h := congrArg List.length (leftpad_toDigits b hb w n hn)
  rw [List.leftpad_length, fixedDigits_length] at h
  omega

theorem toDigitsCore_forall (P : Char → Prop) (hP : ∀ d, P (Nat.digitChar d)) (b : Nat) :
    ∀ (fuel n : Nat) (ds : List Char), (∀ c ∈ ds, P c) →
      ∀ c ∈ Nat.toDigitsCore b fuel n ds, P c := by
  intro fuel
  induction fuel with
  | zero => intro n ds h; simpa [Nat.toDigitsCore] using h
  | succ f ih =>
    intro n ds h
    have hcons : ∀ c ∈ Nat.digitChar (n % b) :: ds, P c := by
      intro c hc
      rcases List.mem_cons.mp hc with rfl | hc
      · exact hP _
      · exact h c hc
    simp only [Nat.toDigitsCore]
    split
    · exact hcons
    · exact ih _ _ hcons

theorem toDigits_forall (P : Char → Prop) (hP : ∀ d, P (Nat.digitChar d)) (b n : Nat) :
    ∀ c ∈ Nat.toDigits b n, P c :=
  toDigitsCore_forall P hP b (n + 1) n [] (by simp)

theorem digitChar_plain (d : Nat) :
    plainChar (Nat.digitChar d) ∧ plainChar (Nat.digitChar d).toUpper := by
  by_cases h : d < 16
  · interval_cases d <;> exact ⟨by decide, by decide⟩
  · have hs : Nat.digitChar d = '*' := by
      unfold Nat.digitChar
      simp only [show d ≠ 0 by omega, show d ≠ 1 by omega, show d ≠ 2 by omega,
        show d ≠ 3 by omega, show d ≠ 4 by omega, show d ≠ 5 by omega, show d ≠ 6 by omega,
        show d ≠ 7 by omega, show d ≠ 8 by omega, show d ≠ 9 by omega, show d ≠ 10 by omega,
        show d ≠ 11 by omega, show d ≠ 12 by omega, show d ≠ 13 by omega, show d ≠ 14 by omega,
        show d ≠ 15 by omega, if_false]
    rw [hs]
    exact ⟨by decide, by decide⟩

theorem digitChar_ne_newline (d : Nat) : Nat.digitChar d ≠ '\n' := (digitChar_plain d).1.1

theorem numDigits_plain (s : Fmt) (n : Nat) : ∀ c ∈ numDigits s n, plainChar c := by
  intro c hc
  unfold numDigits at hc
  split at hc
  · obtain ⟨a, ha, rfl⟩ := List.mem_map.mp hc
    exact toDigits_forall (fun c => plainChar c.toUpper) (fun d => (digitChar_plain d).2) _ _ a ha
  · exact toDigits_forall plainChar (fun d => (digitChar_plain d).1) _ _ c hc

theorem numDigits_length (s : Fmt) (n : Nat) :
    (numDigits s n).length = (Nat.toDigits s.base.radix n).length := by
  unfold numDigits
  split <;> simp

theorem newline_not_mem_toDigits (b n : Nat) : '\n' ∉ Nat.toDigits b n :=
  fun h => (toDigits_forall plainChar (fun d => (digitChar_plain d).1) b n _ h).1 rfl

theorem newline_not_mem_numText (s : Fmt) (n : Nat) : '\n' ∉ numText s n := by
  intro h
  rcases List.mem_append.mp h with h | h
  · unfold basePrefix at h
    split at h
    · split at h
      · simp at h
      · exact absurd h (by decide)
      · split at h <;> exact absurd h (by decide)
    · simp at h
  · exact (numDigits_plain s n _ h).1 rfl

/-! ## Padding -/

theorem padText_of_le (s : Fmt) (body : List Char) (h : s.width ≤ body.length) :
    padText s body = body := by
  unfold padText
  split
  · simp [Nat.sub_eq_zero_of_le h]
  · exact leftpad_of_le _ _ _ h
  · exact leftpad_of_le _ _ _ h

theorem padText_width_zero (b : Base) (f : Char) (adj : Adjust) (up sb : Bool)
    (body : List Char) :
    padText { base := b, fill := f, width := 0, adjust := adj, uppercase := up, showbase := sb }
      body = body :=
  padText_of_le _ _ (Nat.zero_le _)

theorem padNum_of_le (s : Fmt) (txt : List Char) (h : s.width ≤ txt.length) :
    padNum s txt = txt := by
  unfold padNum
  split
  · simp [Nat.sub_eq_zero_of_le h]
  · exact leftpad_of_le _ _ _ h
  · split
    · split
      · simp only [List.length_cons] at h
        simp
        omega
      · exact leftpad_of_le _ _ _ h
    · exact leftpad_of_le _ _ _ h

theorem padNum_of_plain (s : Fmt) (txt : List Char) (h : s.adjust ≠ .left)
    (ht : ∀ c ∈ txt, plainChar c) : padNum s txt = List.leftpad s.width s.fill txt := by
  unfold padNum
  split
  · rename_i heq; exact absurd heq h
  · rfl
  · split
    · rename_i c x rest
      have hx := ht x (by simp)
      rw [if_neg]
      rintro ⟨-, hx1 | hx1⟩
      · exact hx.2.1 hx1
      · exact hx.2.2 hx1
    · rfl

theorem padNum_length (s : Fmt) (txt : List Char) :
    (padNum s txt).length = max s.width txt.length := by
  unfold padNum
  split
  · simp; omega
  · rw [List.leftpad_length]
  · split
    · split
      · simp; omega
      · rw [List.leftpad_length]
    · rw [List.leftpad_length]

theorem mem_padNum (s : Fmt) (txt : List Char) (c : Char) (h : c ∈ padNum s txt) :
    c ∈ txt ∨ c = s.fill := by
  unfold padNum at h
  split at h
  · rcases List.mem_append.mp h with h | h
    · exact Or.inl h
    · exact Or.inr (List.mem_replicate.mp h).2
  · rcases List.mem_append.mp h with h | h
    · exact Or.inr (List.mem_replicate.mp h).2
    · exact Or.inl h
  · split at h
    · split at h
      · simp only [List.mem_cons, List.mem_append, List.mem_replicate] at h
        rcases h with h | h | h | h
        · exact Or.inl (by simp [h])
        · exact Or.inl (by simp [h])
        · exact Or.inr h.2
        · exact Or.inl (by simp [h])
      · rcases List.mem_append.mp h with h | h
        · exact Or.inr (List.mem_replicate.mp h).2
        · exact Or.inl h
    · rcases List.mem_append.mp h with h | h
      · exact Or.inr (List.mem_replicate.mp h).2
      · exact Or.inl h

/-! ## The header and the loop of `me_prdump` -/

theorem run_prdumpRecord_snd (s : Fmt) (i v : Nat) :
    (run (prdumpRecord i v) s).2 = { s with base := .dec, fill := ' ', width := 0 } := rfl

theorem run_prdumpRecord_fst (s : Fmt) (hs : s.width = 0) (i v : Nat) :
    (run (prdumpRecord i v) s).1 = recordTextF s.adjust s.uppercase s.showbase i v := by
  obtain ⟨b, f, w, adj, up, sb⟩ := s
  simp only at hs
  subst hs
  cases adj <;> rfl

theorem recordTextF_split (adj : Adjust) (up sb : Bool) (i v : Nat) :
    recordTextF adj up sb i v =
      ("  ".toList ++ numFieldF .hex 4 adj up sb i ++ ": ".toList) ++ recordBodyF adj up sb v := by
  cases adj <;> simp [recordTextF, recordBodyF, numFieldF, prdumpRecord, putStr, putText,
    putNat, hex, setw, setfill, padText]

theorem bitsetText_length : ∀ N v : Nat, (bitsetText N v).length = N := by
  intro N
  induction N with
  | zero => intro v; rfl
  | succ N ih => intro v; simp [bitsetText, ih]

theorem recordBodyF_eq (adj : Adjust) (up sb : Bool) (v : Nat) :
    recordBodyF adj up sb v =
      numFieldF .hex 2 adj up sb v ++ "  - ".toList ++ numFieldF .dec 3 adj up sb v
        ++ " - ".toList ++ numFieldF .oct 3 adj up sb v ++ " - ".toList ++ bitsetText 8 v
        ++ " - ".toList ++ [charColumn v] ++ ['\n'] := by
  have hbits : ∀ s : Fmt, s.width = 8 → padText s (bitsetText 8 v) = bitsetText 8 v :=
    fun s hs => padText_of_le s _ (by rw [bitsetText_length]; omega)
  have htext : ∀ s : Fmt, s.width = 0 → ∀ body, padText s body = body :=
    fun s hs body => padText_of_le s body (by omega)
  have hchar : ∀ s : Fmt, s.width = 1 → ∀ c : Char, padText s [c] = [c] :=
    fun s hs c => padText_of_le s [c] (by simp; omega)
  simp only [recordBodyF, prdumpRecord, List.drop, run_cons, run_nil, putStr, putChar, putNat,
    putBitset, putText, hex, dec, oct, setw, setfill, numFieldF, charColumn, isprint_iff]
  rw [hbits _ rfl, hchar _ rfl, htext _ rfl, htext _ rfl, htext _ rfl, htext _ rfl,
    htext _ rfl]
  simp only [List.nil_append, List.append_nil, List.append_assoc]

theorem run_prdumpHeader_snd (title : List Char) (n addr : Nat) (s : Fmt) :
    (run (prdumpHeader title n addr) s).2 = { s with base := .hex, fill := '0', width := 0 } :=
  rfl

theorem run_prdumpHeader_fst (title : List Char) (n addr : Nat) (s : Fmt) :
    (run (prdumpHeader title n addr) s).1 =
      padText s ['\n'] ++ headerRestF s.fill s.adjust s.uppercase s.showbase title n addr := by
  obtain ⟨b, f, w, adj, up, sb⟩ := s
  cases adj <;> rfl

theorem prdumpLoop_eq : ∀ (mem : List Nat) (off : Nat) (s : Fmt), s.width = 0 →
    prdumpLoop mem off s =
      (recordLinesF s.adjust s.uppercase s.showbase off mem,
        if mem = [] then s else { s with base := .dec, fill := ' ', width := 0 }) := by
  intro mem
  induction mem with
  | nil => intro off s _; rfl
  | cons m sp ih =>
    intro off s hs
    have hnext := ih ((off + 1) % 65536) { s with base := .dec, fill := ' ', width := 0 } rfl
    simp only [prdumpLoop, run_prdumpRecord_snd, run_prdumpRecord_fst s hs, hnext, recordLinesF]
    by_cases hsp : sp = [] <;> simp [hsp]

theorem recordLinesF_length (adj : Adjust) (up sb : Bool) : ∀ (mem : List Nat) (off : Nat),
    (recordLinesF adj up sb off mem).length = mem.length := by
  intro mem
  induction mem with
  | nil => intro off; rfl
  | cons m sp ih => intro off; simp [recordLinesF, ih]

theorem recordLinesF_getElem? (adj : Adjust) (up sb : Bool) :
    ∀ (mem : List Nat) (off k : Nat), off < 65536 →
      (recordLinesF adj up sb off mem)[k]? =
        (mem[k]?).map (fun m => recordTextF adj up sb ((off + k) % 65536) (m % 256)) := by
  intro mem
  induction mem with
  | nil => intro off k _; simp [recordLinesF]
  | cons m sp ih =>
    intro off k hoff
    cases k with
    | zero => simp [recordLinesF, Nat.mod_eq_of_lt hoff]
    | succ k =>
      simp only [recordLinesF, List.getElem?_cons_succ]
      rw [ih ((off + 1) % 65536) k (Nat.mod_lt _ (by decide))]
      have : ((off + 1) % 65536 + k) % 65536 = (off + (k + 1)) % 65536 := by omega
      rw [this]

theorem mem_recordLinesF (adj : Adjust) (up sb : Bool) :
    ∀ (mem : List Nat) (off : Nat) (r : List Char),
      r ∈ recordLinesF adj up sb off mem → ∃ i v, v < 256 ∧ r = recordTextF adj up sb i v := by
  intro mem
  induction mem with
  | nil => intro off r h; simp [recordLinesF] at h
  | cons m sp ih =>
    intro off r h
    simp only [recordLinesF, List.mem_cons] at h
    rcases h with h | h
    · exact ⟨off, m % 256, Nat.mod_lt _ (by decide), h⟩
    · exact ih _ r h

theorem me_prdump_records_eqF (mem : List Nat) (addr : Nat) (title : List Char) (s : Fmt) :
    me_prdump_records mem addr title s =
      recordLinesF s.adjust s.uppercase s.showbase 0 mem := by
  simp only [me_prdump_records, run_prdumpHeader_snd]
  rw [prdumpLoop_eq mem 0 _ rfl]

theorem me_prdump_eqF (mem : List Nat) (addr : Nat) (title : List Char) (s : Fmt) :
    me_prdump mem addr title s =
      (padText s ['\n'] ++ headerRestF s.fill s.adjust s.uppercase s.showbase title mem.length addr
          ++ (recordLinesF s.adjust s.uppercase s.showbase 0 mem).flatten ++ ['\n'],
        if mem = [] then { s with base := .hex, fill := '0', width := 0 }
        else { s with base := .dec, fill := ' ', width := 0 }) := by
  simp only [me_prdump, run_prdumpHeader_snd, run_prdumpHeader_fst, endl]
  rw [prdumpLoop_eq mem 0 _ rfl]

theorem me_prdump_records_getElem?F (mem : List Nat) (addr : Nat) (title : List Char)
    (s : Fmt) (k m : Nat) (hmem : mem[k]? = some m) :
    (me_prdump_records mem addr title s)[k]? =
      some (recordTextF s.adjust s.uppercase s.showbase (k % 65536) (m % 256)) := by
  rw [me_prdump_records_eqF, recordLinesF_getElem? _ _ _ mem 0 k (by decide), hmem]
  simp

/-! ## Numeric fields -/

theorem radix_ge_two (b : Base) : 2 ≤ b.radix := by
  cases b <;> decide

theorem numText_of_not_showbase (s : Fmt) (hsb : s.showbase = false) (n : Nat) :
    numText s n = numDigits s n := by
  simp [numText, basePrefix, hsb]

theorem numText_plain (s : Fmt) (hup : s.uppercase = false) (hsb : s.showbase = false)
    (n : Nat) : numText s n = Nat.toDigits s.base.radix n := by
  simp [numText, basePrefix, numDigits, hup, hsb]

theorem padNum_toDigits (s : Fmt) (h : s.adjust ≠ .left) (b n : Nat) :
    padNum s (Nat.toDigits b n) = List.leftpad s.width s.fill (Nat.toDigits b n) :=
  padNum_of_plain s _ h (toDigits_forall plainChar (fun d => (digitChar_plain d).1) b n)

theorem numFieldF_newline (b : Base) (w : Nat) (adj : Adjust) (up sb : Bool) (n : Nat) :
    '\n' ∉ numFieldF b w adj up sb n := by
  intro h
  rcases mem_padNum _ _ _ h with h | h
  · exact newline_not_mem_numText _ _ h
  · exact absurd h (show '\n' ≠ '0' by decide)

theorem numFieldF_length (b : Base) (w : Nat) (adj : Adjust) (up : Bool) (n : Nat)
    (hn : n < b.radix ^ (w + 1)) : (numFieldF b (w + 1) adj up false n).length = w + 1 := by
  have hlen := toDigits_length_le b.radix (radix_ge_two b) w n hn
  unfold numFieldF
  rw [padNum_length, numText_of_not_showbase _ rfl, numDigits_length]
  simp only
  omega

theorem numFieldF_of_not_left (b : Base) (w : Nat) (adj : Adjust) (h : adj ≠ .left)
    (up : Bool) (n : Nat) : numFieldF b w adj up false n = zeroField up b.radix w n := by
  unfold numFieldF
  rw [numText_of_not_showbase _ rfl, padNum_of_plain _ _ h (numDigits_plain _ n)]
  cases up <;> rfl

theorem numFieldF_plain (b : Base) (w : Nat) (adj : Adjust) (h : adj ≠ .left) (n : Nat)
    (hn : n < b.radix ^ (w + 1)) :
    numFieldF b (w + 1) adj false false n = fixedDigits b.radix (w + 1) n := by
  rw [numFieldF_of_not_left b (w + 1) adj h false n]
  exact leftpad_toDigits b.radix (radix_ge_two b) w n hn

theorem zeroField_values : ∀ (up : Bool) (v : Nat), v < 256 →
    parseNat 16 (zeroField up 16 2 v) = some v ∧
    parseNat 10 (zeroField up 10 3 v) = some v ∧
    parseNat 8 (zeroField up 8 3 v) = some v ∧
    zeroField up 10 3 v = fixedDigits 10 3 v ∧
    zeroField up 8 3 v = fixedDigits 8 3 v := by
  intro up
  cases up <;> decide!

theorem bitsetText_values : ∀ v : Nat, v < 256 → parseNat 2 (bitsetText 8 v) = some v := by
  decide!

theorem charColumn_code : ∀ v : Nat, v < 256 →
    (if 0x20 ≤ v ∧ v ≤ 0x7e then (charColumn v).toNat = v else charColumn v = '.') := by
  decide!

theorem charColumn_ne_newline : ∀ v : Nat, v < 256 → charColumn v ≠ '\n' := by
  decide!

theorem newline_not_mem_bitsetText : ∀ N v : Nat, '\n' ∉ bitsetText N v := by
  intro N
  induction N with
  | zero => intro v; simp [bitsetText]
  | succ N ih =>
    intro v
    simp only [bitsetText, List.mem_cons, not_or]
    refine ⟨?_, ih v⟩
    split <;> decide

/-! ## Record lines under the flags of a fresh stream -/

theorem headerRestF_plain (f : Char) (adj : Adjust) (h : adj ≠ .left) (title : List Char)
    (n addr : Nat) :
    headerRestF f adj false false title n addr =
      headerLine f title n ++ ['\n'] ++ addressLine addr ++ ['\n'] ++ columnHeader ++ ['\n'] := by
  have htitle : ∀ s : Fmt, s.width = 0 → ∀ body, padText s body = body :=
    fun s hs body => padText_of_le s body (by omega)
  have hptr : ∀ s : Fmt, s.width = 0 → padNum s (ptrText addr) = ptrText addr :=
    fun s hs => padNum_of_le s _ (by omega)
  simp only [headerRestF, prdumpHeader, List.drop, run_cons, run_nil, putStr, putNat, putPtr,
    putText, hex, dec, setw, setfill, endl]
  rw [numText_plain _ rfl rfl, numText_plain _ rfl rfl, padNum_toDigits _ h,
    padNum_toDigits _ h, htitle _ rfl, htitle _ rfl, htitle _ rfl, htitle _ rfl, htitle _ rfl,
    htitle _ rfl, hptr _ rfl]
  simp only [headerLine, addressLine, columnHeader, List.nil_append, List.append_nil,
    List.append_assoc]
  rfl

/-! ## Record lines under any flags -/

theorem field_append (pre body : List Char) (n start len : Nat) (h : pre.length = n) :
    field (pre ++ body) (n + start) len = field body start len := by
  rw [field, field, ← List.drop_drop, List.drop_left' h]

theorem recordBodyF_count_newline (adj : Adjust) (up sb : Bool) (v : Nat) (hv : v < 256) :
    (recordBodyF adj up sb v).count '\n' = 1 := by
  have h16 := List.count_eq_zero.mpr (numFieldF_newline .hex 2 adj up sb v)
  have h10 := List.count_eq_zero.mpr (numFieldF_newline .dec 3 adj up sb v)
  have h8 := List.count_eq_zero.mpr (numFieldF_newline .oct 3 adj up sb v)
  have h2 := List.count_eq_zero.mpr (newline_not_mem_bitsetText 8 v)
  have hc : [charColumn v].count '\n' = 0 :=
    List.count_eq_zero.mpr (by simpa using (charColumn_ne_newline v hv).symm)
  have hs1 : ("  - ".toList).count '\n' = 0 := by decide
  have hs2 : (" - ".toList).count '\n' = 0 := by decide
  have hnl : (['\n'] : List Char).count '\n' = 1 := by decide
  rw [recordBodyF_eq]
  simp only [List.count_append, h16, h10, h8, h2, hc, hs1, hs2, hnl]

theorem recordTextF_count_newline (adj : Adjust) (up sb : Bool) (i v : Nat) (hv : v < 256) :
    (recordTextF adj up sb i v).count '\n' = 1 := by
  have h4 : (numFieldF .hex 4 adj up sb i).count '\n' = 0 :=
    List.count_eq_zero.mpr (numFieldF_newline .hex 4 adj up sb i)
  have h1 : ("  ".toList).count '\n' = 0 := by decide
  have h2 : (": ".toList).count '\n' = 0 := by decide
  rw [recordTextF_split, List.count_append, List.count_append, List.count_append, h1, h2, h4,
    recordBodyF_count_newline adj up sb v hv]

theorem recordTextF_end (adj : Adjust) (up sb : Bool) (i v : Nat) :
    ∃ pre, recordTextF adj up sb i v = pre ++ " - ".toList ++ [charColumn v, '\n'] := by
  refine ⟨("  ".toList ++ numFieldF .hex 4 adj up sb i ++ ": ".toList)
    ++ (numFieldF .hex 2 adj up sb v ++ "  - ".toList ++ numFieldF .dec 3 adj up sb v
        ++ " - ".toList ++ numFieldF .oct 3 adj up sb v ++ " - ".toList ++ bitsetText 8 v), ?_⟩
  rw [recordTextF_split, recordBodyF_eq]
  simp only [List.append_assoc, List.singleton_append]

theorem recordTextF_getLast? (adj : Adjust) (up sb : Bool) (i v : Nat) :
    (recordTextF adj up sb i v).getLast? = some '\n' := by
  obtain ⟨pre, h⟩ := recordTextF_end adj up sb i v
  rw [h]
  simp

theorem recordBodyF_columns (adj : Adjust) (up : Bool) (v : Nat) (hv : v < 256) :
    (recordBodyF adj up false v).length = 31 ∧
    field (recordBodyF adj up false v) 0 2 = numFieldF .hex 2 adj up false v ∧
    field (recordBodyF adj up false v) 2 4 = "  - ".toList ∧
    field (recordBodyF adj up false v) 6 3 = numFieldF .dec 3 adj up false v ∧
    field (recordBodyF adj up false v) 9 3 = " - ".toList ∧
    field (recordBodyF adj up false v) 12 3 = numFieldF .oct 3 adj up false v ∧
    field (recordBodyF adj up false v) 15 3 = " - ".toList ∧
    field (recordBodyF adj up false v) 18 8 = bitsetText 8 v ∧
    field (recordBodyF adj up false v) 26 3 = " - ".toList ∧
    field (recordBodyF adj up false v) 29 1 = [charColumn v] := by
  obtain ⟨a1, a2, h16⟩ := List.length_eq_two.mp
    (numFieldF_length .hex 1 adj up v (by simp [Base.radix]; omega))
  obtain ⟨b1, b2, b3, h10⟩ := List.length_eq_three.mp
    (numFieldF_length .dec 2 adj up v (by simp [Base.radix]; omega))
  obtain ⟨c1, c2, c3, h8⟩ := List.length_eq_three.mp
    (numFieldF_length .oct 2 adj up v (by simp [Base.radix]; omega))
  rw [recordBodyF_eq, h16, h10, h8]
  simp only [bitsetText]
  refine ⟨rfl, rfl, rfl, rfl, rfl, rfl, rfl, rfl, rfl, rfl⟩

theorem recordTextF_prefix_length (adj : Adjust) (up : Bool) (i : Nat) (hi : i < 65536) :
    ("  ".toList ++ numFieldF .hex 4 adj up false i ++ ": ".toList).length = 8 := by
  simp [numFieldF_length .hex 3 adj up i (by simpa [Base.radix] using hi)]

theorem flatten_recordLinesF_count (adj : Adjust) (up sb : Bool) :
    ∀ (mem : List Nat) (off : Nat),
      (recordLinesF adj up sb off mem).flatten.count '\n' = mem.length := by
  intro mem
  induction mem with
  | nil => intro off; rfl
  | cons m sp ih =>
    intro off
    simp only [recordLinesF, List.flatten_cons, List.count_append, ih, List.length_cons]
    rw [recordTextF_count_newline adj up sb off (m % 256) (Nat.mod_lt _ (by decide))]
    omega

theorem flatten_recordLinesF_end (adj : Adjust) (up sb : Bool) :
    ∀ (mem : List Nat) (off : Nat),
      (recordLinesF adj up sb off mem).flatten = [] ∨
        ∃ pre, (recordLinesF adj up sb off mem).flatten = pre ++ ['\n'] := by
  intro mem
  induction mem with
  | nil => intro off; exact Or.inl rfl
  | cons m sp ih =>
    intro off
    right
    simp only [recordLinesF, List.flatten_cons]
    obtain ⟨p, hp⟩ := recordTextF_end adj up sb off (m % 256)
    rcases ih ((off + 1) % 65536) with h | ⟨pre, h⟩
    · rw [h, List.append_nil, hp]
      exact ⟨p ++ " - ".toList ++ [charColumn (m % 256)], by simp [List.append_assoc]⟩
    · rw [h, ← List.append_assoc]
      exact ⟨_, rfl⟩

theorem recordTextF_zero (adj : Adjust) (up sb : Bool) :
    recordTextF adj up sb 0 0 = "  0000: 00  - 000 - 000 - 00000000 - .\n".toList := by
  cases adj <;> cases up <;> cases sb <;> decide!

theorem headerRestF_end (f : Char) (adj : Adjust) (up sb : Bool) (title : List Char)
    (n addr : Nat) :
    ∃ pre, headerRestF f adj up sb title n addr = pre ++ columnHeader ++ ['\n'] := by
  have htext : ∀ s : Fmt, s.width = 0 → ∀ body, padText s body = body :=
    fun s hs body => padText_of_le s body (by omega)
  simp only [headerRestF, prdumpHeader, List.drop, run_cons, run_nil, putStr, putNat, putPtr,
    putText, hex, dec, setw, setfill, endl]
  rw [htext _ rfl "Offset: Hex - Dec - Oct - Bin      - Char".toList]
  simp only [List.nil_append, List.append_nil, ← List.append_assoc]
  exact ⟨_, rfl⟩

theorem newline_not_mem_ptrText (addr : Nat) : '\n' ∉ ptrText addr := by
  unfold ptrText
  split
  · decide
  · simp only [List.mem_cons, not_or]
    exact ⟨by decide, by decide, newline_not_mem_toDigits 16 addr⟩

theorem headerLine_count_newline (f : Char) (title : List Char) (n : Nat)
    (hf : f ≠ '\n') (ht : '\n' ∉ title) : (headerLine f title n).count '\n' = 0 := by
  rw [List.count_eq_zero]
  simp only [headerLine, List.leftpad, List.mem_append, List.mem_replicate, not_or]
  refine ⟨⟨⟨⟨⟨ht, by decide⟩, ?_, newline_not_mem_toDigits 10 n⟩, by decide⟩, ?_,
    newline_not_mem_toDigits 16 n⟩, by decide⟩
  · exact fun h => hf h.2.symm
  · exact fun h => absurd h.2 (by decide)

theorem addressLine_count_newline (addr : Nat) : (addressLine addr).count '\n' = 0 := by
  rw [List.count_eq_zero]
  simp only [addressLine, List.mem_append, not_or]
  exact ⟨by decide, newline_not_mem_ptrText addr⟩

theorem recordTextF_fields (adj : Adjust) (h : adj ≠ .left) (up : Bool) (i v : Nat)
    (hi : i < 65536) (hv : v < 256) :
    parseNat 16 (field (recordTextF adj up false i v) 8 2) = some v ∧
    parseNat 10 (field (recordTextF adj up false i v) 14 3) = some v ∧
    parseNat 8 (field (recordTextF adj up false i v) 20 3) = some v ∧
    parseNat 2 (field (recordTextF adj up false i v) 26 8) = some v := by
  have hlen := recordTextF_prefix_length adj up i hi
  obtain ⟨-, h16, -, h10, -, h8, -, h2, -, -⟩ := recordBodyF_columns adj up v hv
  obtain ⟨z16, z10, z8, -, -⟩ := zeroField_values up v hv
  rw [recordTextF_split, field_append _ _ 8 0 2 hlen, field_append _ _ 8 6 3 hlen,
    field_append _ _ 8 12 3 hlen, field_append _ _ 8 18 8 hlen, h16, h10, h8, h2,
    numFieldF_of_not_left .hex 2 adj h up v, numFieldF_of_not_left .dec 3 adj h up v,
    numFieldF_of_not_left .oct 3 adj h up v]
  exact ⟨z16, z10, z8, bitsetText_values v hv⟩

theorem map_hexField_recordLinesF (adj : Adjust) (h : adj ≠ .left) (up : Bool) :
    ∀ (mem : List Nat) (off : Nat), off < 65536 →
      (recordLinesF adj up false off mem).map (fun line => parseNat 16 (field line 8 2)) =
        mem.map (fun m => some (m % 256)) := by
  intro mem
  induction mem with
  | nil => intro off _; rfl
  | cons m sp ih =>
    intro off hoff
    have hf := (recordTextF_fields adj h up off (m % 256) hoff (Nat.mod_lt _ (by decide))).1
    simp only [recordLinesF, List.map_cons, ih _ (Nat.mod_lt _ (by decide)), hf]

/-! ## Claims on the record lines -/

/-- C2, the defect: in a value of 65537 bytes the record of byte 65536 carries
the offset field `0000`, the same as the record of byte 0, because the offset
counter is a `uint16_t` while the loop index is a `size_t`; the offsets are
neither strictly ascending nor free of repeats. -/
theorem C2_offset_wraps_at_65536 (addr : Nat) (title : List Char) (s : Fmt) :
    (me_prdump_records (List.replicate 65537 0) addr title s)[65536]? =
      some "  0000: 00  - 000 - 000 - 00000000 - .\n".toList ∧
    (me_prdump_records (List.replicate 65537 0) addr title s)[0]? =
      some "  0000: 00  - 000 - 000 - 00000000 - .\n".toList := by
  have h1 : (List.replicate 65537 0)[65536]? = some 0 := by
    rw [List.getElem?_replicate]; simp
  have h0 : (List.replicate 65537 0)[0]? = some 0 := by
    rw [List.getElem?_replicate]; simp
  rw [me_prdump_records_getElem?F _ addr title s 65536 0 h1,
    me_prdump_records_getElem?F _ addr title s 0 0 h0]
  exact ⟨congrArg some (recordTextF_zero _ _ _), congrArg some (recordTextF_zero _ _ _)⟩

/-- C3: for every value of `N` bytes, every title and every formatting state at
entry, the text `me_prdump` writes ends with the column-header line, then the
record lines, then the newline of the trailing blank line; there are exactly
`N` record lines, and each of them is one line: it holds a single newline, its
last character. -/
theorem C3_one_record_per_byte (mem : List Nat) (addr : Nat) (title : List Char) (s : Fmt) :
    (∃ pre, (me_prdump mem addr title s).1 =
        pre ++ "Offset: Hex - Dec - Oct - Bin      - Char\n".toList
          ++ (me_prdump_records mem addr title s).flatten ++ ['\n']) ∧
    (me_prdump_records mem addr title s).length = mem.length ∧
    ∀ r ∈ me_prdump_records mem addr title s, r.count '\n' = 1 ∧ r.getLast? = some '\n' := by
  obtain ⟨pre, hpre⟩ :=
    headerRestF_end s.fill s.adjust s.uppercase s.showbase title mem.length addr
  refine ⟨⟨padText s ['\n'] ++ pre, ?_⟩, ?_, ?_⟩
  · rw [me_prdump_eqF, me_prdump_records_eqF, hpre]
    simp [columnHeader]
  · rw [me_prdump_records_eqF, recordLinesF_length]
  · intro r hr
    rw [me_prdump_records_eqF] at hr
    obtain ⟨i, v, hv, rfl⟩ := mem_recordLinesF _ _ _ mem 0 r hr
    exact ⟨recordTextF_count_newline _ _ _ i v hv, recordTextF_getLast? _ _ _ i v⟩

/-- C4, as stated, fails: with the adjustment `left` at entry the hex field of the
byte 5 reads `50`, which parses to 80, and its decimal field reads `500`; with
`showbase` at entry the two characters at the hex column of the byte 0xAB are
`0x`, which is no number. -/
theorem C4_counterexample :
    ((me_prdump_records [5] 4096 "X".toList
        { base := .dec, fill := ' ', width := 0, adjust := .left })[0]?).map
      (fun line => (parseNat 16 (field line 8 2), parseNat 10 (field line 14 3))) =
      some (some 80, some 500) ∧
    ((me_prdump_records [0xAB] 4096 "X".toList
        { base := .dec, fill := ' ', width := 0, showbase := true })[0]?).map
      (fun line => parseNat 16 (field line 8 2)) = some none := by
  constructor <;> decide!

/-- C4, amended: when the stream at entry has `showbase` clear and an adjustment
other than `left`, for every byte `v` in 0..255 at any position `k` of the
value, the hex field of its record line parsed in base 16, the decimal field
parsed in base 10, the octal field parsed in base 8 and the binary field parsed
in base 2 all give `v` (hexadecimal letters count in either case). -/
theorem C4_numeric_fields_agree (mem : List Nat) (addr : Nat) (title : List Char) (s : Fmt)
    (k v : Nat) (hadj : s.adjust ≠ .left) (hsb : s.showbase = false) (hv : v < 256)
    (hmem : mem[k]? = some v) :
    ∃ line, (me_prdump_records mem addr title s)[k]? = some line ∧
      parseNat 16 (field line 8 2) = some v ∧
      parseNat 10 (field line 14 3) = some v ∧
      parseNat 8 (field line 20 3) = some v ∧
      parseNat 2 (field line 26 8) = some v := by
  refine ⟨recordTextF s.adjust s.uppercase false (k % 65536) v, ?_, ?_⟩
  · rw [me_prdump_records_getElem?F mem addr title s k v hmem, hsb, Nat.mod_eq_of_lt hv]
  · exact recordTextF_fields s.adjust hadj s.uppercase _ v (Nat.mod_lt _ (by decide)) hv

/-- C4 amended, a concrete instance: the byte 0xAB stored at position 1 of a
two-byte value, in a stream with `uppercase` set and the adjustment
`internal`. -/
theorem C4_numeric_fields_agree_witness :
    ((Adjust.internal ≠ Adjust.left) ∧ (false = false) ∧ 0xAB < 256 ∧
      [0x41, 0xAB][1]? = some 0xAB) ∧
    ∃ line, (me_prdump_records [0x41, 0xAB] 4096 "X".toList
        { base := .dec, fill := ' ', width := 0, adjust := .internal, uppercase := true })[1]? =
          some line ∧
      parseNat 16 (field line 8 2) = some 0xAB ∧
      parseNat 10 (field line 14 3) = some 0xAB ∧
      parseNat 8 (field line 20 3) = some 0xAB ∧
      parseNat 2 (field line 26 8) = some 0xAB :=
  ⟨by decide,
    C4_numeric_fields_agree [0x41, 0xAB] 4096 "X".toList
      { base := .dec, fill := ' ', width := 0, adjust := .internal, uppercase := true }
      1 0xAB (by decide) rfl (by decide) rfl⟩

/-- C5: for every byte `v` in 0..255 at any position `k` of the value and every
formatting state at entry, the character column of its record line, the
character between the last `" - "` and the newline, is the character with code
`v` when `v` is printable ASCII (0x20..0x7e), and `.` otherwise; when
`showbase` is clear at entry this column is at index 37. -/
theorem C5_character_column (mem : List Nat) (addr : Nat) (title : List Char) (s : Fmt)
    (k v : Nat) (hv : v < 256) (hmem : mem[k]? = some v) :
    ∃ line c, (me_prdump_records mem addr title s)[k]? = some line ∧
      (∃ pre, line = pre ++ " - ".toList ++ [c, '\n']) ∧
      (if 0x20 ≤ v ∧ v ≤ 0x7e then c.toNat = v else c = '.') ∧
      (s.showbase = false → field line 37 1 = [c]) := by
  refine ⟨recordTextF s.adjust s.uppercase s.showbase (k % 65536) v, charColumn v, ?_,
    recordTextF_end _ _ _ _ v, charColumn_code v hv, ?_⟩
  · rw [me_prdump_records_getElem?F mem addr title s k v hmem, Nat.mod_eq_of_lt hv]
  · intro hsb
    rw [hsb, recordTextF_split, field_append _ _ 8 29 1
      (recordTextF_prefix_length _ _ _ (Nat.mod_lt _ (by decide)))]
    exact (recordBodyF_columns _ _ v hv).2.2.2.2.2.2.2.2.2

/-- C5, witnesses of the claim: the byte 0x41 gives the column `A` and the byte
0xAB gives the column `.`. -/
theorem C5_character_column_witness :
    (0x41 < 256 ∧ [0x41, 0xAB][0]? = some 0x41) ∧
    (∃ line c, (me_prdump_records [0x41, 0xAB] 4096 "X".toList Fmt.initial)[0]? = some line ∧
      (∃ pre, line = pre ++ " - ".toList ++ [c, '\n']) ∧
      (if 0x20 ≤ 0x41 ∧ 0x41 ≤ 0x7e then c.toNat = 0x41 else c = '.') ∧
      (Fmt.initial.showbase = false → field line 37 1 = [c])) ∧
    field ((me_prdump_records [0x41, 0xAB] 4096 "X".toList Fmt.initial).getD 0 []) 37 1 = ['A'] ∧
    field ((me_prdump_records [0x41, 0xAB] 4096 "X".toList Fmt.initial).getD 1 []) 37 1 = ['.'] :=
  ⟨by decide,
    C5_character_column [0x41, 0xAB] 4096 "X".toList Fmt.initial 0 0x41 (by decide) rfl,
    by decide!, by decide!⟩

/-- C6, as stated, fails: with the adjustment `left` at entry the hex column of the
one-byte value 0x05 reads `50` and parses to 0x50, and with `showbase` at entry
the hex column of 0xAB reads `0x` and does not parse. -/
theorem C6_counterexample :
    (me_prdump_records [0x05] 4096 "X".toList
        { base := .dec, fill := ' ', width := 0, adjust := .left }).map
      (fun line => parseNat 16 (field line 8 2)) = [some 0x50] ∧
    (me_prdump_records [0xAB] 4096 "X".toList
        { base := .dec, fill := ' ', width := 0, showbase := true }).map
      (fun line => parseNat 16 (field line 8 2)) = [none] := by
  constructor <;> decide!

/-- C6, amended: when the stream at entry has `showbase` clear and an adjustment
other than `left`, for every value whose storage is the byte sequence `mem`
(each byte in 0..255), parsing the hex column of the record lines from top to
bottom gives back exactly `mem`, in address order. -/
theorem C6_records_in_address_order (mem : List Nat) (addr : Nat) (title : List Char)
    (s : Fmt) (hadj : s.adjust ≠ .left) (hsb : s.showbase = false)
    (hbytes : ∀ b ∈ mem, b < 256) :
    (me_prdump_records mem addr title s).map (fun line => parseNat 16 (field line 8 2)) =
      mem.map some := by
  rw [me_prdump_records_eqF, hsb,
    map_hexField_recordLinesF s.adjust hadj s.uppercase mem 0 (by decide)]
  apply List.map_congr_left
  intro b hb
  rw [Nat.mod_eq_of_lt (hbytes b hb)]

/-- C6 amended, a concrete instance: the four storage bytes 0xEE 0x0E 0x00 0x0B
come back in that order. -/
theorem C6_records_in_address_order_witness :
    (Fmt.initial.adjust ≠ .left ∧ Fmt.initial.showbase = false ∧
      ∀ b ∈ [0xEE, 0x0E, 0x00, 0x0B], b < 256) ∧
    (me_prdump_records [0xEE, 0x0E, 0x00, 0x0B] 4096 "X".toList Fmt.initial).map
        (fun line => parseNat 16 (field line 8 2)) =
      [some 0xEE, some 0x0E, some 0x00, some 0x0B] :=
  ⟨by decide,
    C6_records_in_address_order [0xEE, 0x0E, 0x00, 0x0B] 4096 "X".toList Fmt.initial
      (by decide) rfl (by decide)⟩

/-! ## Claims on the whole report and on the formatting state -/

/-- C7, as stated, fails: with the fill character `.` at entry, and also with a
pending width of 40 at entry, the second of two successive dumps of the same
one-byte value differs from the first. -/
theorem C7_counterexample :
    (me_prdump [0xAB] 4096 "X".toList { base := .dec, fill := '.', width := 0 }).1 ≠
      (me_prdump [0xAB] 4096 "X".toList
        (me_prdump [0xAB] 4096 "X".toList { base := .dec, fill := '.', width := 0 }).2).1 ∧
    (me_prdump [0xAB] 4096 "X".toList { base := .dec, fill := ' ', width := 40 }).1 ≠
      (me_prdump [0xAB] 4096 "X".toList
        (me_prdump [0xAB] 4096 "X".toList { base := .dec, fill := ' ', width := 40 }).2).1 := by
  constructor <;> decide!

/-- C7, amended: for every value of at least one byte, every title and every
numeric base at entry, when the stream at entry has a pending width of at most
1 and a space as fill character, dumping the value twice in succession writes
the same text both times. -/
theorem C7_same_text_twice (mem : List Nat) (addr : Nat) (title : List Char) (s : Fmt)
    (hmem : mem ≠ []) (hw : s.width ≤ 1) (hf : s.fill = ' ') :
    (me_prdump mem addr title s).1 =
      (me_prdump mem addr title (me_prdump mem addr title s).2).1 := by
  have hpad : ∀ t : Fmt, t.width ≤ 1 → padText t ['\n'] = ['\n'] :=
    fun t ht => padText_of_le t _ (by simpa using ht)
  simp only [me_prdump_eqF, hmem, if_false]
  rw [hpad s hw, hpad _ (by simp), hf]

/-- C7 amended, a concrete instance: the state `me_sample` calls `me_prdump` in
(hexadecimal base, fill space, no pending width). -/
theorem C7_same_text_twice_witness :
    ([0xAB] ≠ [] ∧ (0 : Nat) ≤ 1 ∧ ' ' = ' ') ∧
    (me_prdump [0xAB] 4096 "X".toList { base := .hex, fill := ' ', width := 0 }).1 =
      (me_prdump [0xAB] 4096 "X".toList
        (me_prdump [0xAB] 4096 "X".toList { base := .hex, fill := ' ', width := 0 }).2).1 :=
  ⟨by decide,
    C7_same_text_twice [0xAB] 4096 "X".toList { base := .hex, fill := ' ', width := 0 }
      (by decide) (by decide) rfl⟩

/-- C8, as stated, fails: with the fill character `*` at entry the decimal size
of a 16-byte value is padded with `*`, not with spaces; with a pending width of
40 at entry the first character written is not a newline; with the adjustment
`left` at entry both sizes are padded on the right, with `showbase` the
hexadecimal size carries `0x`, and with `uppercase` the hexadecimal size of a
10-byte value is `0000000A`. -/
theorem C8_counterexample :
    (me_prdump (List.replicate 16 0) 4096 "Struct 'S'".toList
        { base := .hex, fill := '*', width := 0 }).1.take 38 =
      "\nStruct 'S' - Size: ****16 [00000010]\n".toList ∧
    (me_prdump (List.replicate 16 0) 4096 "Struct 'S'".toList
        { base := .hex, fill := '*', width := 0 }).1.take 38 ≠
      "\nStruct 'S' - Size:     16 [00000010]\n".toList ∧
    (me_prdump (List.replicate 16 0) 4096 "Struct 'S'".toList
        { base := .hex, fill := ' ', width := 40 }).1.head? ≠ some '\n' ∧
    (me_prdump (List.replicate 16 0) 4096 "Struct 'S'".toList
        { base := .hex, fill := ' ', width := 0, adjust := .left }).1.take 38 =
      "\nStruct 'S' - Size: 16     [10000000]\n".toList ∧
    (me_prdump (List.replicate 16 0) 4096 "Struct 'S'".toList
        { base := .hex, fill := ' ', width := 0, showbase := true }).1.take 38 =
      "\nStruct 'S' - Size:     16 [00000x10]\n".toList ∧
    (me_prdump (List.replicate 10 0) 4096 "Struct 'S'".toList
        { base := .hex, fill := ' ', width := 0, uppercase := true }).1.take 38 =
      "\nStruct 'S' - Size:     10 [0000000A]\n".toList := by
  refine ⟨?_, ?_, ?_, ?_, ?_, ?_⟩ <;> decide!

theorem me_prdump_text_plain (mem : List Nat) (addr : Nat) (title : List Char) (s : Fmt)
    (hw : s.width ≤ 1) (hadj : s.adjust ≠ .left) (hup : s.uppercase = false)
    (hsb : s.showbase = false) :
    (me_prdump mem addr title s).1 =
      ['\n'] ++ headerLine s.fill title mem.length ++ ['\n'] ++ addressLine addr ++ ['\n']
        ++ columnHeader ++ ['\n'] ++ (me_prdump_records mem addr title s).flatten ++ ['\n'] := by
  rw [me_prdump_eqF, me_prdump_records_eqF, padText_of_le s _ (by simpa using hw), hup, hsb,
    headerRestF_plain s.fill s.adjust hadj]
  simp only [List.append_assoc]

/-- C8, amended: for every title and every value size `N`, when the stream at
entry has a pending width of at most 1, a space as fill character, `uppercase`
and `showbase` clear and an adjustment other than `left`, the text `me_prdump`
writes starts with a newline, the title, `" - Size: "`, `N` in decimal
right-aligned in a field of minimum width 6 padded with spaces, `" ["`, `N` in
lowercase hexadecimal in a field of minimum width 8 padded with zeros, `"]"`
and a newline. -/
theorem C8_header_line (mem : List Nat) (addr : Nat) (title : List Char) (s : Fmt)
    (hw : s.width ≤ 1) (hf : s.fill = ' ') (hadj : s.adjust ≠ .left)
    (hup : s.uppercase = false) (hsb : s.showbase = false) :
    ∃ rest, (me_prdump mem addr title s).1 =
      ['\n'] ++ title ++ " - Size: ".toList
        ++ List.leftpad 6 ' ' (Nat.toDigits 10 mem.length) ++ " [".toList
        ++ List.leftpad 8 '0' (Nat.toDigits 16 mem.length) ++ "]\n".toList ++ rest := by
  refine ⟨addressLine addr ++ ['\n'] ++ columnHeader ++ ['\n']
    ++ (me_prdump_records mem addr title s).flatten ++ ['\n'], ?_⟩
  rw [me_prdump_text_plain mem addr title s hw hadj hup hsb, hf]
  simp only [headerLine, List.append_assoc]
  rfl

/-- C8 amended, witness of the claim: the title `Struct 'S'` and a value of 16
bytes give the header line `Struct 'S' - Size:     16 [00000010]`. -/
theorem C8_header_line_witness :
    ((0 : Nat) ≤ 1 ∧ ' ' = ' ' ∧ Adjust.right ≠ Adjust.left ∧ false = false ∧ false = false) ∧
    (∃ rest, (me_prdump (List.replicate 16 0) 4096 "Struct 'S'".toList
        { base := .hex, fill := ' ', width := 0 }).1 =
      ['\n'] ++ "Struct 'S'".toList ++ " - Size: ".toList
        ++ List.leftpad 6 ' ' (Nat.toDigits 10 (List.replicate 16 0).length) ++ " [".toList
        ++ List.leftpad 8 '0' (Nat.toDigits 16 (List.replicate 16 0).length) ++ "]\n".toList
        ++ rest) ∧
    ['\n'] ++ "Struct 'S'".toList ++ " - Size: ".toList
        ++ List.leftpad 6 ' ' (Nat.toDigits 10 (List.replicate 16 0).length) ++ " [".toList
        ++ List.leftpad 8 '0' (Nat.toDigits 16 (List.replicate 16 0).length) ++ "]\n".toList =
      "\nStruct 'S' - Size:     16 [00000010]\n".toList :=
  ⟨by decide,
    C8_header_line (List.replicate 16 0) 4096 "Struct 'S'".toList
      { base := .hex, fill := ' ', width := 0 } (by decide) rfl (by decide) rfl rfl,
    by decide⟩

/-- C9, as stated, fails: with a pending width of 40 at entry the report does
not start with an empty line (its first character is the fill character); with
a newline as fill character at entry the report of a one-byte value holds 11
newlines instead of 1 + 5; and with the adjustment `left` at entry its second
line is not the header line of the report format. -/
theorem C9_counterexample :
    (me_prdump [0xAB] 4096 "X".toList { base := .dec, fill := '.', width := 40 }).1.head? =
      some '.' ∧
    (me_prdump [0xAB] 4096 "X".toList { base := .dec, fill := '\n', width := 0 }).1.count '\n' =
      11 ∧
    (me_prdump [0xAB] 4096 "X".toList { base := .dec, fill := '\n', width := 0 }).1.count '\n' ≠
      1 + 5 ∧
    (me_prdump [0xAB] 4096 "X".toList
        { base := .dec, fill := ' ', width := 0, adjust := .left }).1.take 28 =
      "\nX - Size: 1      [10000000]".toList := by
  refine ⟨?_, ?_, ?_, ?_⟩ <;> decide!

/-- C9, amended: for every value of `N` bytes and every title, when the stream
at entry has a pending width of at most 1, a space as fill character,
`uppercase` and `showbase` clear and an adjustment other than `left`, the
whole text written by `me_prdump` is, in this order and with nothing else: an
empty line, the header line, the line `"Dump address: "` followed by the
address rendering, the line `"Offset: Hex - Dec - Oct - Bin      - Char"`, the
`N` record lines, and one empty line; it ends with two consecutive newlines,
and when the title contains no newline it contains exactly `N + 5` newline
characters. -/
theorem C9_report_layout (mem : List Nat) (addr : Nat) (title : List Char) (s : Fmt)
    (hw : s.width ≤ 1) (hf : s.fill = ' ') (hadj : s.adjust ≠ .left)
    (hup : s.uppercase = false) (hsb : s.showbase = false) :
    (me_prdump mem addr title s).1 =
      ['\n'] ++ headerLine ' ' title mem.length ++ ['\n']
        ++ "Dump address: ".toList ++ ptrText addr ++ ['\n']
        ++ "Offset: Hex - Dec - Oct - Bin      - Char".toList ++ ['\n']
        ++ (me_prdump_records mem addr title s).flatten ++ ['\n'] ∧
    (me_prdump_records mem addr title s).length = mem.length ∧
    (∃ pre, (me_prdump mem addr title s).1 = pre ++ ['\n', '\n']) ∧
    ('\n' ∉ title → (me_prdump mem addr title s).1.count '\n' = mem.length + 5) := by
  have hout : (me_prdump mem addr title s).1 =
      ['\n'] ++ headerLine ' ' title mem.length ++ ['\n'] ++ addressLine addr ++ ['\n']
        ++ columnHeader ++ ['\n'] ++ (me_prdump_records mem addr title s).flatten ++ ['\n'] := by
    rw [me_prdump_text_plain mem addr title s hw hadj hup hsb, hf]
  have hrec := me_prdump_records_eqF mem addr title s
  refine ⟨?_, ?_, ?_, ?_⟩
  · rw [hout]
    simp only [addressLine, columnHeader, List.append_assoc]
  · rw [hrec, recordLinesF_length]
  · rw [hout, hrec]
    rcases flatten_recordLinesF_end s.adjust s.uppercase s.showbase mem 0 with h | ⟨pre, h⟩
    · rw [h, List.append_nil]
      exact ⟨['\n'] ++ headerLine ' ' title mem.length ++ ['\n'] ++ addressLine addr
        ++ ['\n'] ++ columnHeader, by simp only [List.append_assoc]; rfl⟩
    · rw [h]
      exact ⟨['\n'] ++ headerLine ' ' title mem.length ++ ['\n'] ++ addressLine addr
        ++ ['\n'] ++ columnHeader ++ ['\n'] ++ pre, by simp only [List.append_assoc]; rfl⟩
  · intro ht
    have hcol : columnHeader.count '\n' = 0 := by decide
    have hnl : (['\n'] : List Char).count '\n' = 1 := by decide
    rw [hout, hrec]
    simp only [List.count_append,
      headerLine_count_newline ' ' title mem.length (by decide) ht,
      addressLine_count_newline, flatten_recordLinesF_count, hcol, hnl]
    omega

/-- C9 amended, a concrete instance: the whole report of the one-byte value 0xAB
at address 0x1000 with the title `X`, from the initial formatting state. -/
theorem C9_report_layout_witness :
    ((0 : Nat) ≤ 1 ∧ ' ' = ' ' ∧ Adjust.right ≠ Adjust.left ∧ false = false ∧ false = false ∧
      '\n' ∉ "X".toList) ∧
    (me_prdump [0xAB] 4096 "X".toList Fmt.initial).1 =
      ("\nX - Size:      1 [00000001]\nDump address: 0x1000\n"
        ++ "Offset: Hex - Dec - Oct - Bin      - Char\n"
        ++ "  0000: ab  - 171 - 253 - 10101011 - .\n\n").toList ∧
    (me_prdump [0xAB] 4096 "X".toList Fmt.initial).1.count '\n' = 1 + 5 :=
  ⟨by decide,
    (C9_report_layout [0xAB] 4096 "X".toList Fmt.initial (by decide) rfl (by decide) rfl
      rfl).1.trans (by decide!),
    (C9_report_layout [0xAB] 4096 "X".toList Fmt.initial (by decide) rfl (by decide) rfl
      rfl).2.2.2 (by decide)⟩

/-- C10: in `me_sample` and in `cppreference_sample`, for every formatting state
at entry, the state after `copyfmt(init)` (format flags, fill character and
pending width) equals the state at entry, although just before that statement
the fill character is `.` and the width of 40 has been consumed. -/
theorem C10_banner_restores_format (s : Fmt) :
    (me_sample_banner s).2.2 = s ∧
    (cppreference_sample_banner s).2.2 = s ∧
    (me_sample_banner s).2.1 = { s with fill := '.', width := 0 } ∧
    (cppreference_sample_banner s).2.1 = { s with fill := '.', width := 0 } := by
  refine ⟨rfl, rfl, rfl, rfl⟩

/-! ## Claims on the demonstration routines and on the columns -/

theorem cppreference_sample_bitsets_eq (st : Fmt) (hw : st.width ≤ 8) :
    cppreference_sample_bitsets st = some (bitsetLines, { st with width := 0 }) := by
  have hpad : ∀ v : Nat, padText st (bitsetText 8 v) = bitsetText 8 v :=
    fun v => padText_of_le _ _ (by rw [bitsetText_length]; exact hw)
  have hrun : cppreference_sample_bitsets st = some (run
      [ putBitset 8 0, putChar '\n', putBitset 8 42, putChar '\n',
        putBitset 70 ULLONG_MAX, putChar '\n', putBitset 8 0xf0, putChar '\n',
        putBitset 8 50, putChar '\n', putBitset 8 2, putChar '\n',
        putBitset 8 1, putChar '\n', putBitset 8 77, putChar '\n',
        putBitset 8 15, putChar '\n' ] st) := rfl
  rw [hrun]
  simp only [run_cons, run_nil, putBitset, putChar, putText, hpad, padText_width_zero]
  rfl

/-- C11, as stated, fails: entered with a pending width of 12 (and the fill
character space), `cppreference_sample` gets that width back from
`copyfmt(init)` and writes the first bitset as 4 spaces followed by
`00000000`, not as the bare pattern. -/
theorem C11_counterexample :
    cppreference_sample { base := .dec, fill := ' ', width := 12 } =
      some ((cppreference_sample_banner { base := .dec, fill := ' ', width := 12 }).1
          ++ "    ".toList ++ bitsetLines,
        { base := .dec, fill := ' ', width := 0 }) ∧
    (cppreference_sample { base := .dec, fill := ' ', width := 12 }).map Prod.fst ≠
      some ((cppreference_sample_banner { base := .dec, fill := ' ', width := 12 }).1
          ++ bitsetLines) := by
  constructor <;> decide!

/-- C11, amended: for every formatting state at entry with a pending width of at
most 8, `cppreference_sample` returns normally and prints, after its banner,
its nine bitsets one per line, most significant bit first: `00000000`,
`00101010`, 6 zeros followed by 64 ones, `11110000`, `00110010`, `00000010`,
`00000001`, `01001101`, `00001111`. -/
theorem C11_bitset_lines (st : Fmt) (hw : st.width ≤ 8) :
    cppreference_sample st =
      some ((cppreference_sample_banner st).1
          ++ ("00000000\n00101010\n".toList ++ List.replicate 6 '0' ++ List.replicate 64 '1'
            ++ "\n11110000\n00110010\n00000010\n00000001\n01001101\n00001111\n".toList),
        { st with width := 0 }) := by
  have h := cppreference_sample_bitsets_eq (cppreference_sample_banner st).2.2 hw
  simp only [cppreference_sample, h]
  rfl

/-- C11 amended, a concrete instance: the state `me_sample` leaves behind
(decimal, fill space, no pending width). -/
theorem C11_bitset_lines_witness :
    ((0 : Nat) ≤ 8) ∧
    cppreference_sample Fmt.initial =
      some ((List.replicate 39 '.' ++ "\nFunc: cppreference_sample\n\n".toList)
          ++ ("00000000\n00101010\n".toList ++ List.replicate 6 '0' ++ List.replicate 64 '1'
            ++ "\n11110000\n00110010\n00000010\n00000001\n01001101\n00001111\n".toList),
        Fmt.initial) :=
  ⟨by decide, (C11_bitset_lines Fmt.initial (by decide)).trans (by decide!)⟩

/-- C12, as stated, fails: with `showbase` set at entry the record line of the
byte 0xAB has 41 characters before its newline, and its decimal column starts
at index 16. -/
theorem C12_counterexample :
    (me_prdump_records [0xAB] 4096 "X".toList
        { base := .dec, fill := ' ', width := 0, showbase := true })[0]? =
      some "  0000: 0xab  - 171 - 0253 - 10101011 - .\n".toList ∧
    ((me_prdump_records [0xAB] 4096 "X".toList
        { base := .dec, fill := ' ', width := 0, showbase := true })[0]?).map List.length =
      some (41 + 1) ∧
    ((me_prdump_records [0xAB] 4096 "X".toList
        { base := .dec, fill := ' ', width := 0, showbase := true })[0]?).map
      (fun line => (field line 14 3, field line 16 3)) =
      some ("- 1".toList, "171".toList) := by
  refine ⟨?_, ?_, ?_⟩ <;> decide!

/-- C12, amended: when `showbase` is clear at entry, every record line
`me_prdump` writes, for every byte and every position in the dump, has 38
characters before its newline (39 in all, the newline last and nowhere else),
its separators sit at fixed indices, and its value columns start where their
labels start in the column-header line: the hex field at index 8 (`Hex`), the
decimal field at 14 (`Dec`), the octal field at 20 (`Oct`), the 8 binary digits
at 26 (`Bin`) and the character at 37 (`Char`).  The three numeric fields are
the byte as the stream inserts it with fill `0`; when in addition the
adjustment is not `left` and `uppercase` is clear, they are its 2 hex, 3
decimal and 3 octal digits. -/
theorem C12_record_columns (mem : List Nat) (addr : Nat) (title : List Char) (s : Fmt)
    (k m : Nat) (hsb : s.showbase = false) (hmem : mem[k]? = some m) :
    ∃ line, (me_prdump_records mem addr title s)[k]? = some line ∧
      line.length = 38 + 1 ∧ line.getLast? = some '\n' ∧ line.count '\n' = 1 ∧
      field line 0 2 = "  ".toList ∧ field line 6 2 = ": ".toList ∧
      field line 10 4 = "  - ".toList ∧ field line 17 3 = " - ".toList ∧
      field line 23 3 = " - ".toList ∧ field line 34 3 = " - ".toList ∧
      field line 8 2 = numFieldF .hex 2 s.adjust s.uppercase false (m % 256) ∧
      field line 14 3 = numFieldF .dec 3 s.adjust s.uppercase false (m % 256) ∧
      field line 20 3 = numFieldF .oct 3 s.adjust s.uppercase false (m % 256) ∧
      field line 26 8 = fixedDigits 2 8 (m % 256) ∧
      field line 37 1 =
        [if 0x20 ≤ m % 256 ∧ m % 256 ≤ 0x7e then Char.ofNat (m % 256) else '.'] ∧
      (s.adjust ≠ .left → s.uppercase = false →
        field line 8 2 = fixedDigits 16 2 (m % 256) ∧
        field line 14 3 = fixedDigits 10 3 (m % 256) ∧
        field line 20 3 = fixedDigits 8 3 (m % 256)) ∧
      field "Offset: Hex - Dec - Oct - Bin      - Char".toList 8 3 = "Hex".toList ∧
      field "Offset: Hex - Dec - Oct - Bin      - Char".toList 14 3 = "Dec".toList ∧
      field "Offset: Hex - Dec - Oct - Bin      - Char".toList 20 3 = "Oct".toList ∧
      field "Offset: Hex - Dec - Oct - Bin      - Char".toList 26 3 = "Bin".toList ∧
      field "Offset: Hex - Dec - Oct - Bin      - Char".toList 37 4 = "Char".toList := by
  have hv : m % 256 < 256 := Nat.mod_lt _ (by decide)
  have hi : k % 65536 < 65536 := Nat.mod_lt _ (by decide)
  have hline : (me_prdump_records mem addr title s)[k]? =
      some (recordTextF s.adjust s.uppercase false (k % 65536) (m % 256)) := by
    rw [me_prdump_records_getElem?F mem addr title s k m hmem, hsb]
  have hlen := recordTextF_prefix_length s.adjust s.uppercase (k % 65536) hi
  obtain ⟨hbl, h16, hs1, h10, hs2, h8, hs3, h2, hs4, hc⟩ :=
    recordBodyF_columns s.adjust s.uppercase (m % 256) hv
  obtain ⟨o1, o2, o3, o4, hoff⟩ : ∃ o1 o2 o3 o4,
      numFieldF .hex 4 s.adjust s.uppercase false (k % 65536) = [o1, o2, o3, o4] := by
    have h4 := numFieldF_length .hex 3 s.adjust s.uppercase (k % 65536)
      (by simpa [Base.radix] using hi)
    match hm : numFieldF .hex 4 s.adjust s.uppercase false (k % 65536), h4 with
    | [o1, o2, o3, o4], _ => exact ⟨o1, o2, o3, o4, rfl⟩
  have hsplit := recordTextF_split s.adjust s.uppercase false (k % 65536) (m % 256)
  refine ⟨_, hline, ?_, recordTextF_getLast? _ _ _ _ _,
    recordTextF_count_newline _ _ _ _ _ hv, ?_, ?_, ?_, ?_, ?_, ?_, ?_, ?_, ?_, ?_, ?_, ?_,
    by decide, by decide, by decide, by decide, by decide⟩
  · rw [hsplit, List.length_append, hlen, hbl]
  · rw [hsplit, hoff]; rfl
  · rw [hsplit, hoff]; rfl
  · rw [hsplit, field_append _ _ 8 2 4 hlen]; exact hs1
  · rw [hsplit, field_append _ _ 8 9 3 hlen]; exact hs2
  · rw [hsplit, field_append _ _ 8 15 3 hlen]; exact hs3
  · rw [hsplit, field_append _ _ 8 26 3 hlen]; exact hs4
  · rw [hsplit, field_append _ _ 8 0 2 hlen]; exact h16
  · rw [hsplit, field_append _ _ 8 6 3 hlen]; exact h10
  · rw [hsplit, field_append _ _ 8 12 3 hlen]; exact h8
  · rw [hsplit, field_append _ _ 8 18 8 hlen, h2]; exact bitsetText_byte _ hv
  · rw [hsplit, field_append _ _ 8 29 1 hlen]; exact hc
  · intro hadj hup
    rw [hsplit, field_append _ _ 8 0 2 hlen, field_append _ _ 8 6 3 hlen,
      field_append _ _ 8 12 3 hlen, h16, h10, h8, hup]
    exact ⟨numFieldF_plain .hex 1 _ hadj _ (by simp [Base.radix]; omega),
      numFieldF_plain .dec 2 _ hadj _ (by simp [Base.radix]; omega),
      numFieldF_plain .oct 2 _ hadj _ (by simp [Base.radix]; omega)⟩

/-- C12 amended, a concrete instance: the byte 0x41 stored at position 1 of a
two-byte value; its line is `"  0001: 41  - 065 - 101 - 01000001 - A"`. -/
theorem C12_record_columns_witness :
    (Fmt.initial.showbase = false ∧ [0xAB, 0x41][1]? = some 0x41 ∧
      Fmt.initial.adjust ≠ .left ∧ Fmt.initial.uppercase = false) ∧
    (∃ line, (me_prdump_records [0xAB, 0x41] 4096 "X".toList Fmt.initial)[1]? = some line ∧
      line.length = 38 + 1 ∧
      field line 8 2 = fixedDigits 16 2 (0x41 % 256) ∧
      field line 14 3 = fixedDigits 10 3 (0x41 % 256) ∧
      field line 20 3 = fixedDigits 8 3 (0x41 % 256)) ∧
    (me_prdump_records [0xAB, 0x41] 4096 "X".toList Fmt.initial)[1]? =
      some "  0001: 41  - 065 - 101 - 01000001 - A\n".toList := by
  refine ⟨by decide, ?_, by decide!⟩
  obtain ⟨line, hl, hlen, -, -, -, -, -, -, -, -, -, -, -, -, -, hval, -⟩ :=
    C12_record_columns [0xAB, 0x41] 4096 "X".toList Fmt.initial 1 0x41 rfl rfl
  exact ⟨line, hl, hlen, hval (by decide) rfl⟩

/-- C13: for every value of at least one byte, every title and every formatting
state at entry, `me_prdump` returns with the stream in decimal base, with a
space as fill character and with no pending width; the base, fill character
and width at entry are not put back. -/
theorem C13_state_after_dump (mem : List Nat) (addr : Nat) (title : List Char) (s : Fmt)
    (hmem : mem ≠ []) :
    (me_prdump mem addr title s).2 = { s with base := .dec, fill := ' ', width := 0 } := by
  rw [me_prdump_eqF]
  simp [hmem]

/-- C13, a concrete instance: entered in hexadecimal base with fill `.` and a
pending width of 40, `me_prdump` leaves decimal, space and 0, which is not the
state at entry. -/
theorem C13_state_after_dump_witness :
    ([0xAB] ≠ []) ∧
    (me_prdump [0xAB] 4096 "X".toList { base := .hex, fill := '.', width := 40 }).2 =
      { base := .dec, fill := ' ', width := 0 } ∧
    (me_prdump [0xAB] 4096 "X".toList { base := .hex, fill := '.', width := 40 }).2 ≠
      { base := .hex, fill := '.', width := 40 } :=
  ⟨by decide,
    C13_state_after_dump [0xAB] 4096 "X".toList { base := .hex, fill := '.', width := 40 }
      (by decide),
    by decide⟩

/-- C14: with the stream in its default formatting state at entry, the
struct-contents line of `me_sample` for `S{b = 0b101, c = 0b111011101110,
d = 0b1011}` is exactly
`"     5 05      101 : 0eee     111011101110 : 000b     1011"` followed by a
newline, that is: `b` in decimal in width 6, `b` as 2 hex digits, the 3 bits of
`b` in width 8, `c` as 4 hex digits, its 12 bits in width 16, `d` as 4 hex
digits and its 4 bits in width 8, the bit strings padded with spaces; it
stands between the banner and the dump in the output of `me_sample`, whatever
the storage of the struct. -/
theorem C14_struct_contents_line :
    (me_sample_contents (me_sample_banner Fmt.initial).2.2).1 =
      "     5 05      101 : 0eee     111011101110 : 000b     1011\n".toList ∧
    "     5 05      101 : 0eee     111011101110 : 000b     1011".toList =
      List.leftpad 6 ' ' (Nat.toDigits 10 0b101) ++ [' '] ++ fixedDigits 16 2 0b101 ++ [' ']
        ++ List.leftpad 8 ' ' (fixedDigits 2 3 0b101) ++ " : ".toList
        ++ fixedDigits 16 4 0b111011101110 ++ [' ']
        ++ List.leftpad 16 ' ' (fixedDigits 2 12 0b111011101110) ++ " : ".toList
        ++ fixedDigits 16 4 0b1011 ++ [' '] ++ List.leftpad 8 ' ' (fixedDigits 2 4 0b1011) ∧
    ∀ (mem : List Nat) (addr : Nat),
      (me_sample mem addr Fmt.initial).1 =
        (me_sample_banner Fmt.initial).1
          ++ "     5 05      101 : 0eee     111011101110 : 000b     1011\n".toList
          ++ (me_prdump mem addr "Struct 'S'".toList
              { base := .hex, fill := ' ', width := 0 }).1 := by
  have h1 : me_sample_contents (me_sample_banner Fmt.initial).2.2 =
      ("     5 05      101 : 0eee     111011101110 : 000b     1011\n".toList,
        { base := .hex, fill := ' ', width := 0 }) := by decide!
  refine ⟨by rw [h1], by decide!, ?_⟩
  intro mem addr
  simp only [me_sample, h1]

/-- C15: with the stream in its default formatting state at entry, the banner
written by `me_sample` is exactly 39 `.` characters and a newline, then
`Func: me_sample` and two newlines (the width of 40 and the fill are consumed
by the newline written first, `Func: ` is not padded); the banner is the same
from every formatting state at entry whose adjustment is not `left`. -/
theorem C15_banner_text :
    (me_sample_banner Fmt.initial).1 =
      List.replicate 39 '.' ++ "\nFunc: me_sample\n\n".toList ∧
    ∀ s : Fmt, s.adjust ≠ .left →
      (me_sample_banner s).1 = List.replicate 39 '.' ++ "\nFunc: me_sample\n\n".toList := by
  refine ⟨by decide!, ?_⟩
  intro s hadj
  obtain ⟨b, f, w, adj, up, sb⟩ := s
  cases adj with
  | left => exact absurd rfl hadj
  | right => rfl
  | internal => rfl

/-- C15, a concrete instance of its second part: entered in hexadecimal base with
fill `*`, a pending width of 7, the adjustment `internal` and `uppercase` and
`showbase` set, `me_sample` writes the same banner. -/
theorem C15_banner_text_witness :
    (Adjust.internal ≠ Adjust.left) ∧
    (me_sample_banner
        { base := .hex, fill := '*', width := 7, adjust := .internal, uppercase := true,
          showbase := true }).1 =
      List.replicate 39 '.' ++ "\nFunc: me_sample\n\n".toList :=
  ⟨by decide,
    C15_banner_text.2
      { base := .hex, fill := '*', width := 7, adjust := .internal, uppercase := true,
        showbase := true }
      (by decide)⟩


end HiddenWetSolaris
